import Mathlib

/-!
Shallow embedding of the ShipsyAssignment task-management backend
(`src/src/modules/...`), together with theorems settling the frozen claims
about its specification.

Identifiers (uuids in the source) are modelled as `Nat`; timestamps as `Nat`;
repository tables as lists of rows; fallible service methods return
`Except AppError result`, mirroring `throw new AppError(status, message)`.
-/

/-- `AppError(status, message)` from `src/src/common/AppError`. -/
structure AppError where
  status : Nat
  message : String
deriving DecidableEq, Repr

/-- `MemberRole` enum from `organization-member.entity.ts`. -/
inductive MemberRole where
  | owner
  | admin
  | member
  | viewer
deriving DecidableEq, Repr

/-- A row of the `organization_members` table (composite key user/org). -/
structure MemberRow where
  user_id : Nat
  organization_id : Nat
  role : MemberRole
deriving DecidableEq, Repr

/-- `organizationMemberRepository.findOne({ where: { organization_id, user_id } })`. -/
def findMember : List MemberRow → Nat → Nat → Option MemberRow
  | [], _, _ => none
  | m :: ms, orgId, userId =>
    if m.organization_id = orgId ∧ m.user_id = userId then some m
    else findMember ms orgId userId

/-- `organizationMemberRepository.count({ where: { organization_id, role: OWNER } })`. -/
def ownerCount : List MemberRow → Nat → Nat
  | [], _ => 0
  | m :: ms, orgId =>
    (if m.organization_id = orgId ∧ m.role = .owner then 1 else 0) + ownerCount ms orgId

/-- Effect of `memberToUpdate.role = newRole; save(memberToUpdate)`:
the row with the given composite key gets the new role. -/
def setRole : List MemberRow → Nat → Nat → MemberRole → List MemberRow
  | [], _, _, _ => []
  | m :: ms, orgId, userId, r =>
    (if m.organization_id = orgId ∧ m.user_id = userId then { m with role := r } else m)
      :: setRole ms orgId userId r

/-- Effect of `organizationMemberRepository.remove(memberToRemove)`:
the row with the given composite key is deleted. -/
def removeRow : List MemberRow → Nat → Nat → List MemberRow
  | [], _, _ => []
  | m :: ms, orgId, userId =>
    if m.organization_id = orgId ∧ m.user_id = userId then removeRow ms orgId userId
    else m :: removeRow ms orgId userId

/-- `OrganizationsService.updateMemberRole` (organizations.service.ts, lines 150-174). -/
def updateMemberRole (orgId adminId memberId : Nat) (newRole : MemberRole)
    (ms : List MemberRow) : Except AppError (List MemberRow) :=
  match findMember ms orgId adminId with
  | none => .error ⟨403, "You do not have permission to update roles."⟩
  | some admin =>
    if admin.role = .owner ∨ admin.role = .admin then
      if admin.role ≠ .owner ∧ newRole = .owner then
        .error ⟨403, "Only owners can assign the owner role."⟩
      else
        match findMember ms orgId memberId with
        | none => .error ⟨404, "Member not found in this organization."⟩
        | some target =>
          if target.role = .owner ∧ ownerCount ms orgId ≤ 1 then
            .error ⟨400, "Cannot demote the last owner."⟩
          else
            .ok (setRole ms orgId memberId newRole)
    else .error ⟨403, "You do not have permission to update roles."⟩

/-- `OrganizationsService.removeMember` (organizations.service.ts, lines 176-195). -/
def removeMember (orgId adminId memberId : Nat)
    (ms : List MemberRow) : Except AppError (List MemberRow) :=
  match findMember ms orgId adminId with
  | none => .error ⟨403, "You do not have permission to remove members."⟩
  | some admin =>
    if admin.role = .owner ∨ admin.role = .admin then
      match findMember ms orgId memberId with
      | none => .error ⟨404, "Member not found in this organization."⟩
      | some target =>
        if target.role = .owner ∧ ownerCount ms orgId ≤ 1 then
          .error ⟨400, "Cannot remove the last owner."⟩
        else
          .ok (removeRow ms orgId memberId)
    else .error ⟨403, "You do not have permission to remove members."⟩

/-- One call against the member table: either of the two mutating endpoints. -/
inductive MemberOp where
  | update (orgId adminId memberId : Nat) (newRole : MemberRole)
  | remove (orgId adminId memberId : Nat)
deriving DecidableEq, Repr

/-- Run one call; a thrown `AppError` leaves the table unchanged
(every throw in the source happens before the single write). -/
def applyMemberOp (op : MemberOp) (ms : List MemberRow) : List MemberRow :=
  match op with
  | .update orgId adminId memberId newRole =>
    match updateMemberRole orgId adminId memberId newRole ms with
    | .ok ms' => ms'
    | .error _ => ms
  | .remove orgId adminId memberId =>
    match removeMember orgId adminId memberId ms with
    | .ok ms' => ms'
    | .error _ => ms

/-- Run a sequence of calls. -/
def applyMemberOps (ops : List MemberOp) (ms : List MemberRow) : List MemberRow :=
  ops.foldl (fun s op => applyMemberOp op s) ms

/-- The composite primary key (user_id, organization_id) is unique in the table. -/
def MemberKeysNodup (ms : List MemberRow) : Prop :=
  List.Pairwise
    (fun a b => ¬(a.organization_id = b.organization_id ∧ a.user_id = b.user_id)) ms

instance : DecidablePred MemberKeysNodup := fun ms =>
  List.instDecidablePairwise ms

/-! ### Lemmas about the member table -/

theorem findMember_spec {ms : List MemberRow} {o u : Nat} {t : MemberRow}
    (h : findMember ms o u = some t) :
    t ∈ ms ∧ t.organization_id = o ∧ t.user_id = u := by
  induction ms with
  | nil => simp [findMember] at h
  | cons m ms ih =>
    rw [findMember] at h
    split at h
    · rename_i hc
      injection h with h
      subst h
      exact ⟨List.mem_cons_self _ _, hc.1, hc.2⟩
    · rcases ih h with ⟨h1, h2, h3⟩
      exact ⟨List.mem_cons_of_mem _ h1, h2, h3⟩

theorem setRole_eq_of_absent {ms : List MemberRow} {o u : Nat} {r : MemberRole}
    (h : ∀ x ∈ ms, ¬(x.organization_id = o ∧ x.user_id = u)) :
    setRole ms o u r = ms := by
  induction ms with
  | nil => rfl
  | cons m ms ih =>
    rw [setRole]
    rw [if_neg (h m (List.mem_cons_self _ _))]
    rw [ih fun x hx => h x (List.mem_cons_of_mem _ hx)]

theorem ownerCount_setRole_self {ms : List MemberRow} {o u : Nat} {r : MemberRole}
    {t : MemberRow} (hnd : MemberKeysNodup ms) (hf : findMember ms o u = some t) :
    ownerCount (setRole ms o u r) o + (if t.role = .owner then 1 else 0)
      = ownerCount ms o + (if r = .owner then 1 else 0) := by
  induction ms with
  | nil => simp [findMember] at hf
  | cons m ms ih =>
    rcases List.pairwise_cons.mp hnd with ⟨hm, hnd'⟩
    rw [findMember] at hf
    rw [setRole]
    split at hf
    · rename_i hc
      injection hf with hf
      subst hf
      rw [if_pos hc]
      rw [setRole_eq_of_absent (fun x hx hk => hm x hx ⟨hc.1.trans hk.1.symm, hc.2.trans hk.2.symm⟩)]
      simp only [ownerCount]
      have horg : ({ m with role := r } : MemberRow).organization_id = o := hc.1
      by_cases ht : m.role = .owner <;> by_cases hr : r = .owner <;>
        simp [horg, hc.1, ht, hr] <;> omega
    · rename_i hc
      rw [if_neg hc]
      simp only [ownerCount]
      have := ih hnd' hf
      omega

theorem ownerCount_setRole_other {ms : List MemberRow} {o u q : Nat} {r : MemberRole}
    (hq : q ≠ o) :
    ownerCount (setRole ms o u r) q = ownerCount ms q := by
  induction ms with
  | nil => rfl
  | cons m ms ih =>
    rw [setRole]
    simp only [ownerCount]
    split
    · rename_i hc
      have horg : ({ m with role := r } : MemberRow).organization_id = m.organization_id := rfl
      have hne : ¬(m.organization_id = q) := fun h => hq (h.symm.trans hc.1)
      rw [ih]
      have h1 : ¬(({ m with role := r } : MemberRow).organization_id = q ∧
          ({ m with role := r } : MemberRow).role = .owner) := fun h => hne (horg ▸ h.1)
      have h2 : ¬(m.organization_id = q ∧ m.role = .owner) := fun h => hne h.1
      rw [if_neg h1, if_neg h2]
    · rw [ih]

theorem removeRow_sublist (ms : List MemberRow) (o u : Nat) :
    (removeRow ms o u).Sublist ms := by
  induction ms with
  | nil => exact List.Sublist.refl _
  | cons m ms ih =>
    rw [removeRow]
    split
    · exact ih.cons m
    · exact ih.cons₂ m

theorem removeRow_eq_of_absent {ms : List MemberRow} {o u : Nat}
    (h : ∀ x ∈ ms, ¬(x.organization_id = o ∧ x.user_id = u)) :
    removeRow ms o u = ms := by
  induction ms with
  | nil => rfl
  | cons m ms ih =>
    rw [removeRow]
    rw [if_neg (h m (List.mem_cons_self _ _))]
    rw [ih fun x hx => h x (List.mem_cons_of_mem _ hx)]

theorem ownerCount_removeRow_self {ms : List MemberRow} {o u : Nat}
    {t : MemberRow} (hnd : MemberKeysNodup ms) (hf : findMember ms o u = some t) :
    ownerCount (removeRow ms o u) o + (if t.role = .owner then 1 else 0)
      = ownerCount ms o := by
  induction ms with
  | nil => simp [findMember] at hf
  | cons m ms ih =>
    rcases List.pairwise_cons.mp hnd with ⟨hm, hnd'⟩
    rw [findMember] at hf
    rw [removeRow]
    split at hf
    · rename_i hc
      injection hf with hf
      subst hf
      rw [if_pos hc]
      rw [removeRow_eq_of_absent (fun x hx hk => hm x hx ⟨hc.1.trans hk.1.symm, hc.2.trans hk.2.symm⟩)]
      simp only [ownerCount]
      by_cases ht : m.role = .owner <;> simp [hc.1, ht] <;> omega
    · rename_i hc
      rw [if_neg hc]
      simp only [ownerCount]
      have := ih hnd' hf
      omega

theorem ownerCount_removeRow_other {ms : List MemberRow} {o u q : Nat}
    (hq : q ≠ o) :
    ownerCount (removeRow ms o u) q = ownerCount ms q := by
  induction ms with
  | nil => rfl
  | cons m ms ih =>
    rw [removeRow]
    split
    · rename_i hc
      have hne : ¬(m.organization_id = q ∧ m.role = .owner) :=
        fun h => hq (h.1.symm.trans hc.1)
      simp only [ownerCount]
      rw [if_neg hne, ih]
      omega
    · simp only [ownerCount]
      rw [ih]

theorem keysNodup_setRole {ms : List MemberRow} {o u : Nat} {r : MemberRole}
    (h : MemberKeysNodup ms) : MemberKeysNodup (setRole ms o u r) := by
  induction ms with
  | nil => exact h
  | cons m ms ih =>
    rcases List.pairwise_cons.mp h with ⟨hm, h'⟩
    rw [setRole]
    refine List.pairwise_cons.mpr ⟨?_, ih h'⟩
    intro y hy
    have : ∃ x ∈ ms, (if x.organization_id = o ∧ x.user_id = u
        then { x with role := r } else x) = y := by
      clear hm ih h h'
      induction ms with
      | nil => simp [setRole] at hy
      | cons a as iha =>
        rw [setRole] at hy
        rcases List.mem_cons.mp hy with h1 | h1
        · exact ⟨a, List.mem_cons_self _ _, h1.symm⟩
        · rcases iha h1 with ⟨x, hx1, hx2⟩
          exact ⟨x, List.mem_cons_of_mem _ hx1, hx2⟩
    rcases this with ⟨x, hx, hxy⟩
    have hyk : y.organization_id = x.organization_id ∧ y.user_id = x.user_id := by
      subst hxy
      split <;> exact ⟨rfl, rfl⟩
    have hmk : (if m.organization_id = o ∧ m.user_id = u
        then { m with role := r } else m : MemberRow).organization_id = m.organization_id ∧
        (if m.organization_id = o ∧ m.user_id = u
        then { m with role := r } else m : MemberRow).user_id = m.user_id := by
      split <;> exact ⟨rfl, rfl⟩
    intro hk
    exact hm x hx ⟨(hmk.1.symm.trans hk.1).trans hyk.1, (hmk.2.symm.trans hk.2).trans hyk.2⟩

theorem keysNodup_removeRow {ms : List MemberRow} {o u : Nat}
    (h : MemberKeysNodup ms) : MemberKeysNodup (removeRow ms o u) :=
  List.Pairwise.sublist (removeRow_sublist ms o u) h

theorem updateMemberRole_ok {o a mId : Nat} {r : MemberRole}
    {ms ms' : List MemberRow}
    (h : updateMemberRole o a mId r ms = .ok ms') :
    ∃ t, findMember ms o mId = some t ∧ ms' = setRole ms o mId r ∧
      (t.role = .owner → 2 ≤ ownerCount ms o) := by
  unfold updateMemberRole at h
  split at h
  · cases h
  · split at h
    · split at h
      · cases h
      · split at h
        · cases h
        · rename_i t hft
          split at h
          · cases h
          · rename_i hcond
            injection h with h
            exact ⟨t, hft, h.symm, fun ho => by
              by_contra hlt
              exact hcond ⟨ho, by omega⟩⟩
    · cases h

theorem removeMember_ok {o a mId : Nat} {ms ms' : List MemberRow}
    (h : removeMember o a mId ms = .ok ms') :
    ∃ t, findMember ms o mId = some t ∧ ms' = removeRow ms o mId ∧
      (t.role = .owner → 2 ≤ ownerCount ms o) := by
  unfold removeMember at h
  split at h
  · cases h
  · split at h
    · split at h
      · cases h
      · rename_i t hft
        split at h
        · cases h
        · rename_i hcond
          injection h with h
          exact ⟨t, hft, h.symm, fun ho => by
            by_contra hlt
            exact hcond ⟨ho, by omega⟩⟩
    · cases h

theorem ownerCount_applyMemberOp {op : MemberOp} {ms : List MemberRow} {q : Nat}
    (hnd : MemberKeysNodup ms) (h1 : 1 ≤ ownerCount ms q) :
    1 ≤ ownerCount (applyMemberOp op ms) q := by
  cases op with
  | update o a mId r =>
    rw [applyMemberOp]
    cases hres : updateMemberRole o a mId r ms with
    | error e => exact h1
    | ok ms' =>
      show 1 ≤ ownerCount ms' q
      rcases updateMemberRole_ok hres with ⟨t, hft, hset, hcnt⟩
      subst hset
      by_cases hq : q = o
      · subst hq
        have heq := ownerCount_setRole_self (r := r) hnd hft
        by_cases ht : t.role = .owner
        · have h2 := hcnt ht
          rw [if_pos ht] at heq
          by_cases hr : r = .owner
          · rw [if_pos hr] at heq; omega
          · rw [if_neg hr] at heq; omega
        · rw [if_neg ht] at heq
          by_cases hr : r = .owner
          · rw [if_pos hr] at heq; omega
          · rw [if_neg hr] at heq; omega
      · rw [ownerCount_setRole_other hq]
        exact h1
  | remove o a mId =>
    rw [applyMemberOp]
    cases hres : removeMember o a mId ms with
    | error e => exact h1
    | ok ms' =>
      show 1 ≤ ownerCount ms' q
      rcases removeMember_ok hres with ⟨t, hft, hset, hcnt⟩
      subst hset
      by_cases hq : q = o
      · subst hq
        have heq := ownerCount_removeRow_self hnd hft
        by_cases ht : t.role = .owner
        · have h2 := hcnt ht
          rw [if_pos ht] at heq
          omega
        · rw [if_neg ht] at heq
          omega
      · rw [ownerCount_removeRow_other hq]
        exact h1

theorem keysNodup_applyMemberOp {op : MemberOp} {ms : List MemberRow}
    (hnd : MemberKeysNodup ms) : MemberKeysNodup (applyMemberOp op ms) := by
  cases op with
  | update o a mId r =>
    rw [applyMemberOp]
    cases hres : updateMemberRole o a mId r ms with
    | error e => exact hnd
    | ok ms' =>
      rcases updateMemberRole_ok hres with ⟨t, _, hset, _⟩
      subst hset
      exact keysNodup_setRole hnd
  | remove o a mId =>
    rw [applyMemberOp]
    cases hres : removeMember o a mId ms with
    | error e => exact hnd
    | ok ms' =>
      rcases removeMember_ok hres with ⟨t, _, hset, _⟩
      subst hset
      exact keysNodup_removeRow hnd

theorem ownerCount_applyMemberOps (ops : List MemberOp) :
    ∀ ms : List MemberRow, ∀ q : Nat, MemberKeysNodup ms → 1 ≤ ownerCount ms q →
      1 ≤ ownerCount (applyMemberOps ops ms) q := by
  induction ops with
  | nil => intro ms q _ h1; exact h1
  | cons op ops ih =>
    intro ms q hnd h1
    have h2 := @ownerCount_applyMemberOp op ms q hnd h1
    have hnd2 := @keysNodup_applyMemberOp op ms hnd
    exact ih (applyMemberOp op ms) q hnd2 h2

theorem updateMemberRole_lastOwner_error {o a mId : Nat} {r : MemberRole}
    {ms : List MemberRow} {t : MemberRow}
    (hft : findMember ms o mId = some t) (ht : t.role = .owner)
    (hcnt : ownerCount ms o = 1) :
    ∃ e, updateMemberRole o a mId r ms = .error e := by
  unfold updateMemberRole
  split
  · exact ⟨_, rfl⟩
  · split
    · split
      · exact ⟨_, rfl⟩
      · simp only [hft]
        rw [if_pos ⟨ht, by omega⟩]
        exact ⟨_, rfl⟩
    · exact ⟨_, rfl⟩

theorem removeMember_lastOwner_error {o a mId : Nat}
    {ms : List MemberRow} {t : MemberRow}
    (hft : findMember ms o mId = some t) (ht : t.role = .owner)
    (hcnt : ownerCount ms o = 1) :
    ∃ e, removeMember o a mId ms = .error e := by
  unfold removeMember
  split
  · exact ⟨_, rfl⟩
  · split
    · simp only [hft]
      rw [if_pos ⟨ht, by omega⟩]
      exact ⟨_, rfl⟩
    · exact ⟨_, rfl⟩

/-- Claim C1: for every organization and every sequence of `updateMemberRole` and
`removeMember` calls, the number of members with role OWNER stays at least 1; a call
that would demote or remove the last remaining OWNER of an organization is rejected
with an error and leaves the membership table unchanged. -/
theorem c1_last_owner_invariant (ms : List MemberRow) (hnd : MemberKeysNodup ms) :
    (∀ orgId : Nat, 1 ≤ ownerCount ms orgId →
      ∀ ops : List MemberOp, 1 ≤ ownerCount (applyMemberOps ops ms) orgId)
    ∧ (∀ orgId adminId memberId : Nat, ∀ newRole : MemberRole, ∀ t : MemberRow,
        findMember ms orgId memberId = some t → t.role = .owner →
        ownerCount ms orgId = 1 →
        (∃ e, updateMemberRole orgId adminId memberId newRole ms = .error e)
        ∧ applyMemberOp (.update orgId adminId memberId newRole) ms = ms)
    ∧ (∀ orgId adminId memberId : Nat, ∀ t : MemberRow,
        findMember ms orgId memberId = some t → t.role = .owner →
        ownerCount ms orgId = 1 →
        (∃ e, removeMember orgId adminId memberId ms = .error e)
        ∧ applyMemberOp (.remove orgId adminId memberId) ms = ms) := by
  refine ⟨fun orgId h1 ops => ownerCount_applyMemberOps ops ms orgId hnd h1, ?_, ?_⟩
  · intro orgId adminId memberId newRole t hft ht hcnt
    obtain ⟨e, he⟩ := updateMemberRole_lastOwner_error (a := adminId) (r := newRole) hft ht hcnt
    exact ⟨⟨e, he⟩, by rw [applyMemberOp, he]⟩
  · intro orgId adminId memberId t hft ht hcnt
    obtain ⟨e, he⟩ := removeMember_lastOwner_error (a := adminId) hft ht hcnt
    exact ⟨⟨e, he⟩, by rw [applyMemberOp, he]⟩

/-- Witness for C1 at a concrete table: a single OWNER survives a demote/remove
sequence, and demoting the last OWNER errors out. -/
theorem c1_last_owner_invariant_witness :
    (1 ≤ ownerCount
        (applyMemberOps [.update 1 1 1 .member, .remove 1 1 1] [⟨1, 1, .owner⟩]) 1)
    ∧ (∃ e, updateMemberRole 1 2 1 .member [⟨1, 1, .owner⟩] = .error e) := by
  have h := c1_last_owner_invariant [⟨1, 1, .owner⟩] (by decide)
  exact ⟨h.1 1 (by decide) _, (h.2.1 1 2 1 .member ⟨1, 1, .owner⟩ (by decide) rfl (by decide)).1⟩

/-- Claim C9: when the acting member's role is ADMIN and the requested new role is
OWNER, `updateMemberRole` fails with 403 before any lookup of the target member
(the statement holds for every `memberId`, present in the table or not). -/
theorem c9_admin_cannot_grant_owner (ms : List MemberRow) (orgId adminId memberId : Nat)
    (a : MemberRow) (hfa : findMember ms orgId adminId = some a) (ha : a.role = .admin) :
    updateMemberRole orgId adminId memberId .owner ms
      = .error ⟨403, "Only owners can assign the owner role."⟩ := by
  have hne : a.role ≠ .owner := fun h => by rw [ha] at h; cases h
  simp only [updateMemberRole, hfa]
  rw [if_pos (Or.inr ha), if_pos ⟨hne, trivial⟩]

/-- Witness for C9: an ADMIN attempting to grant OWNER is refused even though the
target member does not exist (so no 404 from the target lookup is ever reached). -/
theorem c9_admin_cannot_grant_owner_witness :
    findMember [⟨1, 1, .admin⟩] 1 2 = none ∧
    updateMemberRole 1 1 2 .owner [⟨1, 1, .admin⟩]
      = .error ⟨403, "Only owners can assign the owner role."⟩ :=
  ⟨by decide, c9_admin_cannot_grant_owner _ 1 1 2 ⟨1, 1, .admin⟩ (by decide) rfl⟩

/-! ### Organizations: creation (organizations.service.ts, lines 26-49) -/

/-- Split a character list into maximal whitespace-free words
(`acc` holds the current word, reversed). -/
def wordsAux : List Char → List Char → List (List Char)
  | [], acc => if acc = [] then [] else [acc.reverse]
  | c :: rest, acc =>
    if c.isWhitespace then
      if acc = [] then wordsAux rest [] else acc.reverse :: wordsAux rest []
    else wordsAux rest (c :: acc)

/-- `slugify(name, { lower: true, strict: true })` from the `slugify` npm package:
strict mode strips characters that are neither alphanumeric nor whitespace, the
string is trimmed, whitespace runs collapse to a single `-`, and the result is
lowercased. -/
def slugify (s : String) : String :=
  let kept := s.data.filter fun c => c.isAlphanum || c.isWhitespace
  String.mk ((List.intercalate ['-'] (wordsAux kept [])).map Char.toLower)

/-- A row of the `organizations` table (the fields used by the service). -/
structure Org where
  id : Nat
  name : String
  slug : String
deriving DecidableEq, Repr

/-- Store state for the organizations module; `nextOrgId` models uuid generation. -/
structure OrgState where
  orgs : List Org
  members : List MemberRow
  nextOrgId : Nat
deriving DecidableEq, Repr

/-- `organizationRepository.findOne({ where: { slug } })`. -/
def findOrgBySlug : List Org → String → Option Org
  | [], _ => none
  | o :: os, slug => if o.slug = slug then some o else findOrgBySlug os slug

/-- `OrganizationsService.createOrganization` (organizations.service.ts, lines 26-49):
409 when an organization with the derived slug exists; otherwise one transaction
saves the organization and the creator's OWNER membership. -/
def createOrganization (userId : Nat) (name : String) (st : OrgState) :
    Except AppError (Nat × OrgState) :=
  let slug := slugify name
  match findOrgBySlug st.orgs slug with
  | some _ => .error ⟨409, "Organization with this name already exists."⟩
  | none =>
    let oid := st.nextOrgId
    .ok (oid,
      { orgs := st.orgs ++ [⟨oid, name, slug⟩]
        members := st.members ++ [⟨userId, oid, .owner⟩]
        nextOrgId := oid + 1 })

/-- All membership rows of one organization. -/
def orgMembers : List MemberRow → Nat → List MemberRow
  | [], _ => []
  | m :: ms, orgId =>
    if m.organization_id = orgId then m :: orgMembers ms orgId
    else orgMembers ms orgId

theorem findOrgBySlug_of_mem {os : List Org} {o : Org} {slug : String}
    (hmem : o ∈ os) (hs : o.slug = slug) :
    ∃ o', findOrgBySlug os slug = some o' := by
  induction os with
  | nil => cases hmem
  | cons a as ih =>
    rw [findOrgBySlug]
    by_cases ha : a.slug = slug
    · rw [if_pos ha]; exact ⟨a, rfl⟩
    · rw [if_neg ha]
      rcases List.mem_cons.mp hmem with h | h
      · exact absurd (h ▸ hs) ha
      · exact ih h

theorem ownerCount_append (a b : List MemberRow) (o : Nat) :
    ownerCount (a ++ b) o = ownerCount a o + ownerCount b o := by
  induction a with
  | nil => simp [ownerCount]
  | cons m ms ih =>
    show (if m.organization_id = o ∧ m.role = .owner then 1 else 0) + ownerCount (ms ++ b) o
        = ((if m.organization_id = o ∧ m.role = .owner then 1 else 0) + ownerCount ms o)
          + ownerCount b o
    rw [ih]
    omega

theorem ownerCount_eq_zero {ms : List MemberRow} {o : Nat}
    (h : ∀ m ∈ ms, m.organization_id ≠ o) : ownerCount ms o = 0 := by
  induction ms with
  | nil => rfl
  | cons m ms ih =>
    rw [ownerCount]
    rw [if_neg fun hc => h m (List.mem_cons_self _ _) hc.1]
    simpa using ih fun x hx => h x (List.mem_cons_of_mem _ hx)

theorem orgMembers_append (a b : List MemberRow) (o : Nat) :
    orgMembers (a ++ b) o = orgMembers a o ++ orgMembers b o := by
  induction a with
  | nil => simp [orgMembers]
  | cons m ms ih =>
    show (if m.organization_id = o then m :: orgMembers (ms ++ b) o else orgMembers (ms ++ b) o)
        = (if m.organization_id = o then m :: orgMembers ms o else orgMembers ms o)
          ++ orgMembers b o
    rw [ih]
    split <;> simp

theorem orgMembers_eq_nil {ms : List MemberRow} {o : Nat}
    (h : ∀ m ∈ ms, m.organization_id ≠ o) : orgMembers ms o = [] := by
  induction ms with
  | nil => rfl
  | cons m ms ih =>
    rw [orgMembers]
    rw [if_neg (h m (List.mem_cons_self _ _))]
    exact ih fun x hx => h x (List.mem_cons_of_mem _ hx)

/-- Claim C7: `createOrganization` fails with Conflict (409) when an existing
organization has the same derived slug, and on success the new state holds the
organization row together with exactly one membership row for its organization —
the creator with role OWNER. -/
theorem c7_create_organization (st : OrgState) (userId : Nat) (name : String)
    (hwf : ∀ m ∈ st.members, m.organization_id < st.nextOrgId) :
    ((∃ o ∈ st.orgs, o.slug = slugify name) →
      createOrganization userId name st
        = .error ⟨409, "Organization with this name already exists."⟩)
    ∧ (∀ oid st', createOrganization userId name st = .ok (oid, st') →
        (∃ o ∈ st'.orgs, o.id = oid ∧ o.name = name ∧ o.slug = slugify name)
        ∧ orgMembers st'.members oid = [⟨userId, oid, .owner⟩]
        ∧ ownerCount st'.members oid = 1) := by
  constructor
  · rintro ⟨o, hmem, hs⟩
    obtain ⟨o', ho'⟩ := findOrgBySlug_of_mem hmem hs
    simp only [createOrganization, ho']
  · intro oid st' h
    simp only [createOrganization] at h
    split at h
    · cases h
    · injection h with h
      injection h with h1 h2
      subst h1
      subst h2
      have hne : ∀ m ∈ st.members, m.organization_id ≠ st.nextOrgId :=
        fun m hm => Nat.ne_of_lt (hwf m hm)
      refine ⟨⟨⟨st.nextOrgId, name, slugify name⟩, by simp, rfl, rfl, rfl⟩, ?_, ?_⟩
      · show orgMembers (st.members ++ [⟨userId, st.nextOrgId, .owner⟩]) st.nextOrgId = _
        rw [orgMembers_append, orgMembers_eq_nil hne]
        simp [orgMembers]
      · show ownerCount (st.members ++ [⟨userId, st.nextOrgId, .owner⟩]) st.nextOrgId = 1
        rw [ownerCount_append, ownerCount_eq_zero hne]
        simp [ownerCount]

/-- Witness for C7: creating "Acme" on a fresh store yields exactly the creator's
OWNER membership; creating a second "Acme" against that state fails with 409. -/
theorem c7_create_organization_witness :
    createOrganization 7 "Acme"
        ⟨[⟨0, "Acme", "acme"⟩], [⟨7, 0, .owner⟩], 1⟩
      = .error ⟨409, "Organization with this name already exists."⟩
    ∧ orgMembers [⟨7, 0, .owner⟩] 0 = [⟨7, 0, .owner⟩] := by
  have hdup := c7_create_organization ⟨[⟨0, "Acme", "acme"⟩], [⟨7, 0, .owner⟩], 1⟩ 7 "Acme"
    (by decide)
  have hok := c7_create_organization ⟨[], [], 0⟩ 7 "Acme" (by decide)
  refine ⟨hdup.1 ⟨⟨0, "Acme", "acme"⟩, by decide, by decide⟩, ?_⟩
  exact (hok.2 0 ⟨[⟨0, "Acme", "acme"⟩], [⟨7, 0, .owner⟩], 1⟩ rfl).2.1

/-! ### Tasks (tasks.service.ts) -/

/-- `TaskStatus` enum from `task.entity.ts`. -/
inductive TaskStatus where
  | todo
  | inProgress
  | review
  | done
  | archived
deriving DecidableEq, Repr

/-- `TaskPriority` enum from `task.entity.ts`. -/
inductive TaskPriority where
  | low
  | medium
  | high
  | urgent
deriving DecidableEq, Repr

/-- A row of the `tasks` table (task.entity.ts). -/
structure TaskRow where
  id : Nat
  project_id : Nat
  title : String
  description : Option String
  status : TaskStatus
  priority : TaskPriority
  assignee_id : Option Nat
  due_date : Option Nat
  created_by : Nat
  completed_at : Option Nat
deriving DecidableEq, Repr

/-- A row of the `projects` table (the fields the tasks service reads). -/
structure ProjectRow where
  id : Nat
  organization_id : Nat
deriving DecidableEq, Repr

/-- Store state for the tasks module; `nextTaskId` models uuid generation. -/
structure TasksState where
  tasks : List TaskRow
  projects : List ProjectRow
  members : List MemberRow
  nextTaskId : Nat
deriving DecidableEq, Repr

/-- `projectRepository.findOne({ where: { id } })`. -/
def findProject : List ProjectRow → Nat → Option ProjectRow
  | [], _ => none
  | p :: ps, pid => if p.id = pid then some p else findProject ps pid

/-- `taskRepository.findOne({ where: { id } })`. -/
def findTask : List TaskRow → Nat → Option TaskRow
  | [], _ => none
  | t :: ts, tid => if t.id = tid then some t else findTask ts tid

/-- Effect of saving an updated task row: the row with the same id is replaced. -/
def replaceTask : List TaskRow → TaskRow → List TaskRow
  | [], _ => []
  | t :: ts, t' =>
    if t.id = t'.id then t' :: replaceTask ts t' else t :: replaceTask ts t'

/-- `CreateTaskDto` (create-task.dto.ts); `none` encodes an absent optional key. -/
structure CreateTaskDto where
  title : String
  description : Option String := none
  status : Option TaskStatus := none
  priority : Option TaskPriority := none
  assigneeId : Option Nat := none
  dueDate : Option Nat := none
deriving DecidableEq, Repr

/-- `UpdateTaskDto`; `none` encodes an absent optional key. -/
structure UpdateTaskDto where
  title : Option String := none
  description : Option String := none
  status : Option TaskStatus := none
  priority : Option TaskPriority := none
  assigneeId : Option Nat := none
  dueDate : Option Nat := none
deriving DecidableEq, Repr

/-- The assignee membership check shared by createTask/updateTask:
`if (dto.assigneeId) { ... 400 when not a member of the project's organization }`. -/
def assigneeCheck (members : List MemberRow) (orgId : Nat) (assigneeId : Option Nat) :
    Except AppError Unit :=
  match assigneeId with
  | none => .ok ()
  | some a =>
    match findMember members orgId a with
    | none => .error ⟨400, "Assignee is not a member of this organization."⟩
    | some _ => .ok ()

/-- `TasksService.createTask` (tasks.service.ts, lines 37-63): resolve the project,
check the caller's and (when supplied) the assignee's membership, then save
`create({...dto, project_id, created_by, status: TaskStatus.TODO})` — the `status`
key written after the spread overwrites any status carried by the dto, and the
entity column default fills `priority` (MEDIUM) when the dto has none.  The dto
keys `assigneeId`/`dueDate` are not entity column property names
(`assignee_id`/`due_date`), so `repository.create` drops them and those columns
keep their defaults. -/
def createTask (projectId userId : Nat) (dto : CreateTaskDto) (st : TasksState) :
    Except AppError (TaskRow × TasksState) :=
  match findProject st.projects projectId with
  | none => .error ⟨404, "Project not found."⟩
  | some project =>
    match findMember st.members project.organization_id userId with
    | none => .error ⟨403, "You do not have access to this project."⟩
    | some _ =>
      match assigneeCheck st.members project.organization_id dto.assigneeId with
      | .error e => .error e
      | .ok _ =>
        let task : TaskRow :=
          { id := st.nextTaskId
            project_id := projectId
            title := dto.title
            description := dto.description
            status := .todo
            priority := dto.priority.getD .medium
            assignee_id := none
            due_date := none
            created_by := userId
            completed_at := none }
        .ok (task, { st with tasks := st.tasks ++ [task], nextTaskId := st.nextTaskId + 1 })

/-- `TasksService.updateTask` (tasks.service.ts, lines 137-163).  The
completed_at branches mirror the source conditions exactly:
`dto.status === DONE && task.status !== DONE` sets it to now, and
`dto.status !== DONE && task.status === DONE` clears it — a dto whose payload
carries no `status` key satisfies the second test.  `Object.assign(task, dto)`
then copies the keys present in the dto onto the entity; `assigneeId`/`dueDate`
are not entity column property names, so those columns are unaffected.  A task
whose project row is missing crashes on `task.project.organization_id`
(modelled as a 500). -/
def updateTask (taskId userId : Nat) (dto : UpdateTaskDto) (now : Nat)
    (st : TasksState) : Except AppError (TaskRow × TasksState) :=
  match findTask st.tasks taskId with
  | none => .error ⟨404, "TaskRow not found."⟩
  | some task =>
    match findProject st.projects task.project_id with
    | none => .error ⟨500, "Internal error."⟩
    | some project =>
      match findMember st.members project.organization_id userId with
      | none => .error ⟨403, "You do not have permission to update this task."⟩
      | some _ =>
        match assigneeCheck st.members project.organization_id dto.assigneeId with
        | .error e => .error e
        | .ok _ =>
          let t1 : TaskRow :=
            if dto.status = some .done ∧ task.status ≠ .done then
              { task with completed_at := some now }
            else if dto.status ≠ some .done ∧ task.status = .done then
              { task with completed_at := none }
            else task
          let t2 : TaskRow :=
            { t1 with
              title := dto.title.getD t1.title
              description := match dto.description with
                | some d => some d
                | none => t1.description
              status := dto.status.getD t1.status
              priority := dto.priority.getD t1.priority }
          .ok (t2, { st with tasks := replaceTask st.tasks t2 })

/-- Sort direction (`'ASC' | 'DESC'`). -/
inductive SortDir where
  | asc
  | desc
deriving DecidableEq, Repr

/-- `SortParams` from tasks.service.ts. -/
structure SortParams where
  sortBy : Option String := none
  sortOrder : Option SortDir := none
deriving DecidableEq, Repr

/-- `PaginationParams` (pagination util); `none` encodes an absent key. -/
structure PaginationParams where
  page : Option Int := none
  limit : Option Int := none
deriving DecidableEq, Repr

/-- `TaskFilterParams` from tasks.service.ts (empty list / none = filter absent). -/
structure TaskFilterParams where
  status : List TaskStatus := []
  priority : List TaskPriority := []
  assignee : List Nat := []
  due_date_from : Option Nat := none
  due_date_to : Option Nat := none
  search : Option String := none
deriving DecidableEq, Repr

/-- JavaScript `x || d` on numbers: the default replaces a missing or zero
(falsy) value; any other value, including a negative one, is kept. -/
def jsOr (x : Option Int) (d : Int) : Int :=
  match x with
  | none => d
  | some v => if v = 0 then d else v

/-- The query `getProjectTasks` builds: filters, ORDER BY, OFFSET (`skip`) and
LIMIT (`take`). -/
structure TaskQuery where
  project_id : Nat
  statusFilter : List TaskStatus
  priorityFilter : List TaskPriority
  assigneeFilter : List Nat
  dueFrom : Option Nat
  dueTo : Option Nat
  search : Option String
  orderBy : Option (String × SortDir)
  skip : Int
  take : Int
deriving DecidableEq, Repr

/-- `TasksService.getProjectTasks` (tasks.service.ts, lines 65-115), embedded as
the query description it builds after the project and membership checks:
`qb.orderBy('task.' + sorting.sortBy, sorting.sortOrder || 'ASC')` is applied
only when `sortBy` is supplied, receiving the caller's string verbatim, and no
ordering is applied otherwise; `skip`/`take` use the `|| 1` / `|| 10` defaults
with no further normalization. -/
def getProjectTasksQuery (projectId userId : Nat) (filters : TaskFilterParams)
    (pagination : PaginationParams) (sorting : SortParams) (st : TasksState) :
    Except AppError TaskQuery :=
  match findProject st.projects projectId with
  | none => .error ⟨404, "Project not found."⟩
  | some project =>
    match findMember st.members project.organization_id userId with
    | none => .error ⟨403, "You do not have access to this project."⟩
    | some _ =>
      .ok { project_id := projectId
            statusFilter := filters.status
            priorityFilter := filters.priority
            assigneeFilter := filters.assignee
            dueFrom := filters.due_date_from
            dueTo := filters.due_date_to
            search := filters.search
            orderBy := sorting.sortBy.map
              fun f => ("task." ++ f, sorting.sortOrder.getD .asc)
            skip := (jsOr pagination.page 1 - 1) * jsOr pagination.limit 10
            take := jsOr pagination.limit 10 }

/-- The metadata envelope of `createPaginatedResponse` (pagination util, lines
49-69 of the file also holding the mention parser). -/
structure PaginatedMeta where
  total : Int
  page : Int
  limit : Int
  totalPages : Int
  hasNext : Bool
  hasPrevious : Bool
deriving DecidableEq, Repr

/-- `Math.ceil(a / b)` for integers with `b > 0`. -/
def jsCeilDiv (a b : Int) : Int := -((-a).fdiv b)

/-- `createPaginatedResponse`: `page || 1`, `limit || 10`,
`totalPages = Math.ceil(total / limit)`, `hasNext = page < totalPages`,
`hasPrevious = page > 1` — no clamping of either parameter. -/
def createPaginatedResponse (total : Int) (params : PaginationParams) :
    PaginatedMeta :=
  let page := jsOr params.page 1
  let limit := jsOr params.limit 10
  let totalPages := jsCeilDiv total limit
  { total := total
    page := page
    limit := limit
    totalPages := totalPages
    hasNext := decide (page < totalPages)
    hasPrevious := decide (page > 1) }

/-- A concrete store for task-endpoint evaluations: project 0 in organization 0,
user 1 an OWNER member of organization 0. -/
def tasksStateA : TasksState :=
  { tasks := []
    projects := [⟨0, 0⟩]
    members := [⟨1, 0, .owner⟩]
    nextTaskId := 0 }

/-- A concrete store holding one DONE task with a non-null completed_at. -/
def tasksStateDone : TasksState :=
  { tasks := [{ id := 0, project_id := 0, title := "t", description := none,
                status := .done, priority := .medium, assignee_id := none,
                due_date := none, created_by := 1, completed_at := some 100 }]
    projects := [⟨0, 0⟩]
    members := [⟨1, 0, .owner⟩]
    nextTaskId := 1 }

/-- Claim C2 (code bug): an `updateTask` whose payload carries no status key,
applied to a DONE task, clears `completed_at` while leaving the status DONE —
the resulting task violates `completed_at ≠ null ↔ status = DONE`. -/
theorem c2_update_without_status_clears_completed_at :
    ∃ t' st', updateTask 0 1 { title := some "renamed" } 200 tasksStateDone
        = .ok (t', st')
      ∧ t'.status = .done ∧ t'.completed_at = none :=
  ⟨_, _, rfl, rfl, rfl⟩

/-- Claim C10: every task returned by a successful `createTask` has status TODO
regardless of the dto's status field, and priority defaults to MEDIUM when the
dto carries none (while a supplied priority is kept). -/
theorem c10_createTask_status_todo (st : TasksState) (projectId userId : Nat)
    (dto : CreateTaskDto) (t : TaskRow) (st' : TasksState)
    (h : createTask projectId userId dto st = .ok (t, st')) :
    t.status = .todo ∧ (dto.priority = none → t.priority = .medium)
      ∧ (∀ p, dto.priority = some p → t.priority = p) := by
  unfold createTask at h
  split at h
  · cases h
  · split at h
    · cases h
    · split at h
      · cases h
      · injection h with h
        injection h with h1 h2
        subst h1
        refine ⟨rfl, fun hp => ?_, fun p hp => ?_⟩
        · show dto.priority.getD .medium = .medium
          rw [hp]; rfl
        · show dto.priority.getD .medium = p
          rw [hp]; rfl

/-- Witness for C10: a create payload carrying status DONE and no priority still
yields a TODO task with MEDIUM priority. -/
theorem c10_createTask_status_todo_witness :
    ∃ t st', createTask 0 1 { title := "x", status := some .done } tasksStateA
        = .ok (t, st')
      ∧ t.status = .todo ∧ t.priority = .medium := by
  have h := c10_createTask_status_todo tasksStateA 0 1
    { title := "x", status := some .done } _ _ rfl
  exact ⟨_, _, rfl, h.1, h.2.1 rfl⟩

/-- Claim C4 counterexample: a sortBy value far outside any field whitelist is
neither rejected nor ignored — the call succeeds and the caller-supplied string
reaches the built query's ORDER BY verbatim; and with no sortBy the query
carries no ordering at all (not creation time descending). -/
theorem c4_sortBy_unchecked_counterexample :
    (∃ q, getProjectTasksQuery 0 1 {} {}
        { sortBy := some "evil_column; DROP TABLE tasks" } tasksStateA = .ok q
      ∧ q.orderBy = some ("task.evil_column; DROP TABLE tasks", .asc))
    ∧ (∃ q, getProjectTasksQuery 0 1 {} {} {} tasksStateA = .ok q
      ∧ q.orderBy = none) :=
  ⟨⟨_, rfl, rfl⟩, ⟨_, rfl, rfl⟩⟩

/-- Claim C4 as amended: `getProjectTasks` checks no sort whitelist — for a
member of the project's organization the call succeeds for every sortBy value,
the built query orders by the string `task.` ++ sortBy taken verbatim from the
caller (direction defaulting to ASC), and when no sortBy is supplied the query
applies no ordering. -/
theorem c4_sortBy_passthrough (st : TasksState) (projectId userId : Nat)
    (filters : TaskFilterParams) (pagination : PaginationParams)
    (sortBy : Option String) (sortOrder : Option SortDir) (p : ProjectRow)
    (hp : findProject st.projects projectId = some p)
    (hm : (findMember st.members p.organization_id userId).isSome) :
    ∃ q, getProjectTasksQuery projectId userId filters pagination
        ⟨sortBy, sortOrder⟩ st = .ok q
      ∧ q.orderBy = sortBy.map (fun f => ("task." ++ f, sortOrder.getD .asc)) := by
  rcases Option.isSome_iff_exists.mp hm with ⟨m, hm'⟩
  simp only [getProjectTasksQuery, hp, hm']
  exact ⟨_, rfl, rfl⟩

/-- Witness for the amended C4: with project 0 and member 1 present, sortBy
"priority; --" lands verbatim in the ORDER BY. -/
theorem c4_sortBy_passthrough_witness :
    ∃ q, getProjectTasksQuery 0 1 {} {} ⟨some "priority; --", none⟩ tasksStateA
        = .ok q
      ∧ q.orderBy = (some "priority; --").map
          (fun f => ("task." ++ f, (none : Option SortDir).getD .asc)) :=
  c4_sortBy_passthrough tasksStateA 0 1 {} {} (some "priority; --") none ⟨0, 0⟩
    rfl (by decide)

/-- Claim C5 (code bug): the task-list query applies no clamping — limit=500 is
taken verbatim (not clamped to 100) and page=-5 yields a negative offset (not
floored to page 1); `createPaginatedResponse` likewise reports the raw values. -/
theorem c5_no_pagination_clamp :
    (∃ q, getProjectTasksQuery 0 1 {}
        { page := some (-5), limit := some 500 } {} tasksStateA = .ok q
      ∧ q.take = 500 ∧ q.skip = -3000)
    ∧ (createPaginatedResponse 25 { limit := some 500 }).limit = 500
    ∧ (createPaginatedResponse 25 { page := some (-5) }).page = -5
    ∧ (createPaginatedResponse 25 { limit := some 10 }).totalPages = 3 :=
  ⟨⟨_, rfl, by decide, by decide⟩, by decide, by decide, by decide⟩

/-! ### Custom properties (custom-properties.service.ts) -/

/-- `PropertyType` enum from `custom-property.entity.ts`. -/
inductive PropertyType where
  | text
  | number
  | date
  | datetime
  | select
  | multiSelect
  | user
deriving DecidableEq, Repr

/-- `EntityType` enum from `custom-property.entity.ts`. -/
inductive EntityType where
  | task
  | project
deriving DecidableEq, Repr

/-- A row of the `custom_properties` table. -/
structure CustomProperty where
  id : Nat
  organization_id : Nat
  property_name : String
  property_type : PropertyType
  entity_type : EntityType
  options : List String
deriving DecidableEq, Repr

/-- A row of the `custom_property_values` table; `value` models the JSON
payload (for USER-typed properties the source treats it as a user id). -/
structure CustomPropertyValue where
  entity_id : Nat
  entity_type : EntityType
  custom_property_id : Nat
  value : Nat
deriving DecidableEq, Repr

/-- Store state for the custom-properties module. -/
structure CPState where
  props : List CustomProperty
  values : List CustomPropertyValue
  users : List Nat
  members : List MemberRow
deriving DecidableEq, Repr

/-- `customPropertyRepository.findOne({ where: { id } })`. -/
def findProp : List CustomProperty → Nat → Option CustomProperty
  | [], _ => none
  | p :: ps, pid => if p.id = pid then some p else findProp ps pid

/-- `customPropertyValueRepository.findOne({ where: { entity_id, custom_property_id } })`. -/
def findValue : List CustomPropertyValue → Nat → Nat → Option CustomPropertyValue
  | [], _, _ => none
  | v :: vs, e, pid =>
    if v.entity_id = e ∧ v.custom_property_id = pid then some v
    else findValue vs e pid

/-- Saving the (possibly fresh) value row: replace the row with the same
(entity_id, custom_property_id) key or append a new one. -/
def upsertValue : List CustomPropertyValue → CustomPropertyValue → List CustomPropertyValue
  | [], row => [row]
  | v :: vs, row =>
    if v.entity_id = row.entity_id ∧ v.custom_property_id = row.custom_property_id then
      row :: vs
    else v :: upsertValue vs row

/-- The only validation `setPropertyValue` performs: for a USER-typed property the
supplied value must be an existing user who is a member of the property's
organization.  The ACTING user is not checked anywhere. -/
def userValueCheck (st : CPState) (prop : CustomProperty) (value : Nat) :
    Except AppError Unit :=
  if prop.property_type = .user then
    if value ∈ st.users then
      match findMember st.members prop.organization_id value with
      | none => .error ⟨400, "User is not a member of this organization."⟩
      | some _ => .ok ()
    else .error ⟨404, "User not found."⟩
  else .ok ()

/-- `CustomPropertiesService.setPropertyValue` (custom-properties.service.ts,
lines 78-108).  The `userId` argument is received from the controller but never
consulted: no membership check is made on the caller. -/
def setPropertyValue (entityId propId value userId : Nat) (st : CPState) :
    Except AppError (CustomPropertyValue × CPState) :=
  match findProp st.props propId with
  | none => .error ⟨404, "Custom property not found."⟩
  | some prop =>
    match userValueCheck st prop value with
    | .error e => .error e
    | .ok _ =>
      let row : CustomPropertyValue :=
        match findValue st.values entityId propId with
        | some v => { v with value := value }
        | none =>
          { entity_id := entityId
            entity_type := prop.entity_type
            custom_property_id := propId
            value := value }
      .ok (row, { st with values := upsertValue st.values row })

/-- `CustomPropertiesService.getEntityPropertyValues` (custom-properties.service.ts,
lines 110-115): a plain find by (entity_id, entity_type); the signature carries
no actor at all. -/
def getEntityPropertyValues (entityId : Nat) (entityType : EntityType) :
    List CustomPropertyValue → List CustomPropertyValue
  | [] => []
  | v :: vs =>
    if v.entity_id = entityId ∧ v.entity_type = entityType then
      v :: getEntityPropertyValues entityId entityType vs
    else getEntityPropertyValues entityId entityType vs

/-- A concrete store: a TEXT property of organization 0; user 1 is the only
member of organization 0; user 99 exists but belongs to no organization. -/
def cpStateA : CPState :=
  { props := [⟨0, 0, "field", .text, .task, []⟩]
    values := []
    users := [1, 99]
    members := [⟨1, 0, .owner⟩] }

/-- Claim C3 (code bug): user 99 is not a member of organization 0, yet
`setPropertyValue` invoked by user 99 on a property of organization 0 succeeds
and persists the value, `getEntityPropertyValues` then exposes it with no actor
check at all, and the outcome of `setPropertyValue` does not depend on the
acting user in any way. -/
theorem c3_non_member_writes_property_value :
    findMember cpStateA.members 0 99 = none
    ∧ (∃ st', setPropertyValue 5 0 42 99 cpStateA = .ok (⟨5, .task, 0, 42⟩, st')
        ∧ getEntityPropertyValues 5 .task st'.values = [⟨5, .task, 0, 42⟩])
    ∧ (∀ uid : Nat,
        setPropertyValue 5 0 42 uid cpStateA = setPropertyValue 5 0 42 99 cpStateA) := by
  refine ⟨rfl, ⟨{ cpStateA with values := [⟨5, .task, 0, 42⟩] }, rfl, rfl⟩, fun _ => rfl⟩

/-! ### Mention parsing (mention-parser.util.ts, lines 13-28) -/

/-- Split at the first `]`: returns the characters before it and the rest after. -/
def splitAtRB : List Char → Option (List Char × List Char)
  | [] => none
  | c :: rest =>
    if c = ']' then some ([], rest)
    else
      match splitAtRB rest with
      | some (a, b) => some (c :: a, b)
      | none => none

/-- The optional `(?:user:)?` group: `@[user:x]` captures `x`, while `@[user:]`
backtracks (the capture needs at least one character) and captures `user:`. -/
def stripUserTag (inner : List Char) : List Char :=
  match inner with
  | 'u' :: 's' :: 'e' :: 'r' :: ':' :: rest => if rest = [] then inner else rest
  | _ => inner

/-- Fuel-driven scanner equivalent to repeatedly running the global regex
`@\[(?:user:)?([^\]]+)\]` of `MentionParserUtil.parse`: on `@[`, the capture is
everything up to the next `]` (non-empty); a failed match resumes one character
further; each step consumes at least one character, so fuel = input length
suffices. -/
def parseMentionsAux : Nat → List Char → List String
  | 0, _ => []
  | _, [] => []
  | fuel + 1, '@' :: '[' :: rest =>
    (match splitAtRB rest with
     | some (inner, after) =>
       if inner = [] then parseMentionsAux fuel ('[' :: rest)
       else String.mk (stripUserTag inner) :: parseMentionsAux fuel after
     | none => parseMentionsAux fuel ('[' :: rest))
  | fuel + 1, _ :: rest => parseMentionsAux fuel rest

/-- `MentionParserUtil.parse`, returning the list of captured identifiers
(the source wraps each in `{ username }`). -/
def parseMentions (content : String) : List String :=
  parseMentionsAux content.data.length content.data

/-! ### Comments (comments.service.ts) -/

/-- A row of the `users` table (the fields mention resolution reads). -/
structure UserRow where
  id : Nat
  username : String
deriving DecidableEq, Repr

/-- A row of the `comments` table. -/
structure CommentRow where
  id : Nat
  task_id : Nat
  user_id : Nat
  content : String
deriving DecidableEq, Repr

/-- A row of the `mentions` table. -/
structure MentionRow where
  comment_id : Nat
  mentioned_user_id : Nat
deriving DecidableEq, Repr

/-- Store state for the comments module (tasks/projects/members are carried so
the comment's organization chain can be resolved). -/
structure CommentsState where
  comments : List CommentRow
  mentions : List MentionRow
  users : List UserRow
  tasks : List TaskRow
  projects : List ProjectRow
  members : List MemberRow
deriving DecidableEq, Repr

/-- `commentRepository.findOne({ where: { id } })`. -/
def findComment : List CommentRow → Nat → Option CommentRow
  | [], _ => none
  | c :: cs, cid => if c.id = cid then some c else findComment cs cid

/-- Saving the updated comment row: replace the row with the same id. -/
def replaceComment : List CommentRow → CommentRow → List CommentRow
  | [], _ => []
  | c :: cs, c' =>
    if c.id = c'.id then c' :: replaceComment cs c' else c :: replaceComment cs c'

/-- `commentRepository.delete(commentId)`. -/
def removeComment : List CommentRow → Nat → List CommentRow
  | [], _ => []
  | c :: cs, cid =>
    if c.id = cid then removeComment cs cid else c :: removeComment cs cid

/-- The users matched by `username IN (:...usernames)` — each table row at most
once, in table order. -/
def usersIn : List UserRow → List String → List UserRow
  | [], _ => []
  | u :: us, names =>
    if u.username ∈ names then u :: usersIn us names else usersIn us names

/-- The mention rows of one comment. -/
def mentionsOf : List MentionRow → Nat → List MentionRow
  | [], _ => []
  | m :: ms, cid =>
    if m.comment_id = cid then m :: mentionsOf ms cid else mentionsOf ms cid

/-- `manager.delete(Mention, { comment_id: commentId })`. -/
def deleteMentionsOf : List MentionRow → Nat → List MentionRow
  | [], _ => []
  | m :: ms, cid =>
    if m.comment_id = cid then deleteMentionsOf ms cid else m :: deleteMentionsOf ms cid

/-- `CommentsService.updateComment` (comments.service.ts, lines 91-124): 404 when
the comment is missing, 403 unless the actor authored it; then one transaction
saves the new content, deletes every mention row of the comment, resolves the
parsed tokens against the users table by username — with no organization
restriction — and inserts one mention row per matched user. -/
def updateComment (commentId userId : Nat) (content : String)
    (st : CommentsState) : Except AppError CommentsState :=
  match findComment st.comments commentId with
  | none => .error ⟨404, "Comment not found."⟩
  | some c =>
    if c.user_id ≠ userId then
      .error ⟨403, "You do not have permission to update this comment."⟩
    else
      let resolved := usersIn st.users (parseMentions content)
      .ok { st with
        comments := replaceComment st.comments { c with content := content }
        mentions := deleteMentionsOf st.mentions commentId
          ++ resolved.map fun u => ⟨commentId, u.id⟩ }

/-- Whether the actor holds ADMIN or OWNER in the organization —
`member && [ADMIN, OWNER].includes(member.role)`. -/
def isPrivileged (members : List MemberRow) (orgId userId : Nat) : Bool :=
  match findMember members orgId userId with
  | some m => decide (m.role = .admin ∨ m.role = .owner)
  | none => false

/-- `CommentsService.deleteComment` (comments.service.ts, lines 126-138): 404 when
the comment is missing; 403 unless the actor authored the comment or is an
ADMIN/OWNER of the organization reached through task → project; then the comment
row is deleted (row-level cascades on mentions live in the schema, outside this
service).  A broken task/project chain crashes on the relation access
(modelled as a 500). -/
def deleteComment (commentId userId : Nat) (st : CommentsState) :
    Except AppError CommentsState :=
  match findComment st.comments commentId with
  | none => .error ⟨404, "Comment not found."⟩
  | some c =>
    match findTask st.tasks c.task_id with
    | none => .error ⟨500, "Internal error."⟩
    | some t =>
      match findProject st.projects t.project_id with
      | none => .error ⟨500, "Internal error."⟩
      | some p =>
        if c.user_id ≠ userId ∧ isPrivileged st.members p.organization_id userId = false then
          .error ⟨403, "You do not have permission to delete this comment."⟩
        else
          .ok { st with comments := removeComment st.comments commentId }

theorem mem_usersIn {us : List UserRow} {names : List String} {u : UserRow} :
    u ∈ usersIn us names ↔ u ∈ us ∧ u.username ∈ names := by
  induction us with
  | nil => simp [usersIn]
  | cons a as ih =>
    rw [usersIn]
    split
    · rename_i ha
      simp only [List.mem_cons, ih]
      constructor
      · rintro (rfl | ⟨h1, h2⟩)
        · exact ⟨Or.inl rfl, ha⟩
        · exact ⟨Or.inr h1, h2⟩
      · rintro ⟨rfl | h1, h2⟩
        · exact Or.inl rfl
        · exact Or.inr ⟨h1, h2⟩
    · rename_i ha
      rw [ih]
      simp only [List.mem_cons]
      constructor
      · rintro ⟨h1, h2⟩
        exact ⟨Or.inr h1, h2⟩
      · rintro ⟨rfl | h1, h2⟩
        · exact absurd h2 ha
        · exact ⟨h1, h2⟩

theorem usersIn_sublist (us : List UserRow) (names : List String) :
    (usersIn us names).Sublist us := by
  induction us with
  | nil => exact List.Sublist.refl _
  | cons a as ih =>
    rw [usersIn]
    split
    · exact ih.cons₂ a
    · exact ih.cons a

theorem mem_deleteMentionsOf {ms : List MentionRow} {cid : Nat} {m : MentionRow} :
    m ∈ deleteMentionsOf ms cid ↔ m ∈ ms ∧ m.comment_id ≠ cid := by
  induction ms with
  | nil => simp [deleteMentionsOf]
  | cons a as ih =>
    rw [deleteMentionsOf]
    split
    · rename_i ha
      rw [ih]
      simp only [List.mem_cons]
      constructor
      · rintro ⟨h1, h2⟩
        exact ⟨Or.inr h1, h2⟩
      · rintro ⟨rfl | h1, h2⟩
        · exact absurd ha h2
        · exact ⟨h1, h2⟩
    · rename_i ha
      simp only [List.mem_cons, ih]
      constructor
      · rintro (rfl | ⟨h1, h2⟩)
        · exact ⟨Or.inl rfl, ha⟩
        · exact ⟨Or.inr h1, h2⟩
      · rintro ⟨rfl | h1, h2⟩
        · exact Or.inl rfl
        · exact Or.inr ⟨h1, h2⟩

theorem mentionsOf_append (a b : List MentionRow) (cid : Nat) :
    mentionsOf (a ++ b) cid = mentionsOf a cid ++ mentionsOf b cid := by
  induction a with
  | nil => simp [mentionsOf]
  | cons m ms ih =>
    show (if m.comment_id = cid then m :: mentionsOf (ms ++ b) cid
          else mentionsOf (ms ++ b) cid)
        = (if m.comment_id = cid then m :: mentionsOf ms cid else mentionsOf ms cid)
          ++ mentionsOf b cid
    rw [ih]
    split <;> simp

theorem mentionsOf_deleteMentionsOf (ms : List MentionRow) (cid : Nat) :
    mentionsOf (deleteMentionsOf ms cid) cid = [] := by
  induction ms with
  | nil => rfl
  | cons m ms ih =>
    rw [deleteMentionsOf]
    split
    · exact ih
    · rename_i hne
      rw [mentionsOf, if_neg hne]
      exact ih

theorem mentionsOf_all {l : List MentionRow} {cid : Nat}
    (h : ∀ m ∈ l, m.comment_id = cid) : mentionsOf l cid = l := by
  induction l with
  | nil => rfl
  | cons m ms ih =>
    rw [mentionsOf, if_pos (h m (List.mem_cons_self _ _))]
    rw [ih fun x hx => h x (List.mem_cons_of_mem _ hx)]

/-- Claim C6 counterexample: the comment's organization is 0 and user 2 ("eve")
is not a member of it, yet updating the comment to mention `@[eve]` persists the
mention ⟨5, 2⟩ — mention resolution is not restricted to the comment's
organization as the claim states (it also shows the stale mention ⟨5, 1⟩ being
dropped). -/
theorem c6_resolution_not_org_restricted :
    ∃ st', updateComment 5 1 "hi @[eve]"
        { comments := [⟨5, 9, 1, "old"⟩]
          mentions := [⟨5, 1⟩]
          users := [⟨1, "alice"⟩, ⟨2, "eve"⟩]
          tasks := [{ id := 9, project_id := 3, title := "t", description := none,
                      status := .todo, priority := .medium, assignee_id := none,
                      due_date := none, created_by := 1, completed_at := none }]
          projects := [⟨3, 0⟩]
          members := [⟨1, 0, .owner⟩] } = .ok st'
      ∧ mentionsOf st'.mentions 5 = [⟨5, 2⟩]
      ∧ findProject [(⟨3, 0⟩ : ProjectRow)] 3 = some ⟨3, 0⟩
      ∧ findMember [⟨1, 0, .owner⟩] 0 2 = none :=
  ⟨_, rfl, rfl, rfl, rfl⟩

/-- Claim C6 as amended: after a successful `updateComment`, the persisted
mention set of the comment is exactly the users whose username appears among
the parsed mention tokens of the new content — resolved against the whole users
table (not restricted to the comment's organization) — with no duplicates,
unresolved tokens silently dropped, and mentions of other comments untouched;
the regeneration is atomic with the content write. -/
theorem c6_mention_regeneration (st : CommentsState) (commentId userId : Nat)
    (content : String) (c : CommentRow)
    (hc : findComment st.comments commentId = some c)
    (hauth : c.user_id = userId)
    (hnodup : (st.users.map UserRow.id).Nodup) :
    ∃ st', updateComment commentId userId content st = .ok st'
      ∧ (∀ uid : Nat, (⟨commentId, uid⟩ : MentionRow) ∈ st'.mentions ↔
          ∃ u ∈ st.users, u.id = uid ∧ u.username ∈ parseMentions content)
      ∧ ((mentionsOf st'.mentions commentId).map MentionRow.mentioned_user_id).Nodup
      ∧ (∀ m : MentionRow, m.comment_id ≠ commentId →
          (m ∈ st'.mentions ↔ m ∈ st.mentions)) := by
  simp only [updateComment, hc]
  rw [if_neg (by simp [hauth])]
  refine ⟨_, rfl, ?_, ?_, ?_⟩
  · intro uid
    simp only [List.mem_append, mem_deleteMentionsOf, List.mem_map, mem_usersIn]
    constructor
    · rintro (⟨_, hne⟩ | ⟨u, ⟨hu, hn⟩, he⟩)
      · exact absurd rfl hne
      · have hid : u.id = uid := congrArg MentionRow.mentioned_user_id he
        exact ⟨u, hu, hid, hn⟩
    · rintro ⟨u, hu, hid, hn⟩
      exact Or.inr ⟨u, ⟨hu, hn⟩, by rw [hid]⟩
  · rw [mentionsOf_append, mentionsOf_deleteMentionsOf]
    rw [mentionsOf_all (by
      intro m hm
      rcases List.mem_map.mp hm with ⟨u, _, rfl⟩
      rfl)]
    rw [List.nil_append, List.map_map]
    exact List.Nodup.sublist
      ((usersIn_sublist st.users (parseMentions content)).map UserRow.id) hnodup
  · intro m hm
    simp only [List.mem_append, mem_deleteMentionsOf, List.mem_map, mem_usersIn]
    constructor
    · rintro (⟨h1, _⟩ | ⟨u, _, he⟩)
      · exact h1
      · exact absurd (congrArg MentionRow.comment_id he).symm hm
    · intro h1
      exact Or.inl ⟨h1, hm⟩

/-- Witness for C6 (amended): evaluating the mention-set characterization at the
counterexample store. -/
theorem c6_mention_regeneration_witness :
    ∃ st', updateComment 5 1 "hi @[eve]"
        { comments := [⟨5, 9, 1, "old"⟩]
          mentions := [⟨5, 1⟩]
          users := [⟨1, "alice"⟩, ⟨2, "eve"⟩]
          tasks := [{ id := 9, project_id := 3, title := "t", description := none,
                      status := .todo, priority := .medium, assignee_id := none,
                      due_date := none, created_by := 1, completed_at := none }]
          projects := [⟨3, 0⟩]
          members := [⟨1, 0, .owner⟩] } = .ok st'
      ∧ ((⟨5, 2⟩ : MentionRow) ∈ st'.mentions ↔
          ∃ u ∈ [(⟨1, "alice"⟩ : UserRow), ⟨2, "eve"⟩], u.id = 2
            ∧ u.username ∈ parseMentions "hi @[eve]")
      ∧ ((mentionsOf st'.mentions 5).map MentionRow.mentioned_user_id).Nodup := by
  obtain ⟨st', h1, h2, h3, _⟩ := c6_mention_regeneration
    { comments := [⟨5, 9, 1, "old"⟩]
      mentions := [⟨5, 1⟩]
      users := [⟨1, "alice"⟩, ⟨2, "eve"⟩]
      tasks := [{ id := 9, project_id := 3, title := "t", description := none,
                  status := .todo, priority := .medium, assignee_id := none,
                  due_date := none, created_by := 1, completed_at := none }]
      projects := [⟨3, 0⟩]
      members := [⟨1, 0, .owner⟩] }
    5 1 "hi @[eve]" ⟨5, 9, 1, "old"⟩ rfl rfl (by decide)
  exact ⟨st', h1, h2 2, h3⟩

/-- Claim C8: for an existing comment (with intact task/project chain),
`updateComment` succeeds exactly for the comment's author and fails 403 for any
other actor; `deleteComment` succeeds exactly when the actor is the author or
an ADMIN/OWNER member of the comment's organization, and fails 403 otherwise. -/
theorem c8_comment_mutation_authorization (st : CommentsState)
    (commentId userId : Nat) (c : CommentRow) (t : TaskRow) (p : ProjectRow)
    (hc : findComment st.comments commentId = some c)
    (ht : findTask st.tasks c.task_id = some t)
    (hp : findProject st.projects t.project_id = some p) :
    (∀ content : String,
      (c.user_id = userId →
        ∃ st', updateComment commentId userId content st = .ok st')
      ∧ (c.user_id ≠ userId →
        updateComment commentId userId content st
          = .error ⟨403, "You do not have permission to update this comment."⟩))
    ∧ ((c.user_id = userId
        ∨ (∃ m, findMember st.members p.organization_id userId = some m
            ∧ (m.role = .admin ∨ m.role = .owner))) →
      ∃ st', deleteComment commentId userId st = .ok st')
    ∧ (c.user_id ≠ userId →
      (∀ m, findMember st.members p.organization_id userId = some m →
        ¬(m.role = .admin ∨ m.role = .owner)) →
      deleteComment commentId userId st
        = .error ⟨403, "You do not have permission to delete this comment."⟩) := by
  refine ⟨fun content => ⟨?_, ?_⟩, ?_, ?_⟩
  · intro hauth
    simp only [updateComment, hc]
    rw [if_neg (by simp [hauth])]
    exact ⟨_, rfl⟩
  · intro hne
    simp only [updateComment, hc]
    rw [if_pos hne]
  · intro hok
    simp only [deleteComment, hc, ht, hp]
    have hcond : ¬(c.user_id ≠ userId
        ∧ isPrivileged st.members p.organization_id userId = false) := by
      rcases hok with h | ⟨m, hm, hr⟩
      · exact fun hcontra => hcontra.1 h
      · intro hcontra
        have hpriv : isPrivileged st.members p.organization_id userId = true := by
          unfold isPrivileged
          rw [hm]
          simpa using hr
        rw [hpriv] at hcontra
        exact absurd hcontra.2 (by simp)
    rw [if_neg hcond]
    exact ⟨_, rfl⟩
  · intro hne hnopriv
    simp only [deleteComment, hc, ht, hp]
    have hpriv : isPrivileged st.members p.organization_id userId = false := by
      unfold isPrivileged
      cases hm : findMember st.members p.organization_id userId with
      | none => rfl
      | some m => simpa using hnopriv m hm
    rw [if_pos ⟨hne, hpriv⟩]

/-- Witness for C8: author 1 can update comment 5; actor 7 (no membership) can
neither update nor delete it. -/
theorem c8_comment_mutation_authorization_witness :
    (∃ st', updateComment 5 1 "edited"
        { comments := [⟨5, 9, 1, "old"⟩]
          mentions := []
          users := [⟨1, "alice"⟩]
          tasks := [{ id := 9, project_id := 3, title := "t", description := none,
                      status := .todo, priority := .medium, assignee_id := none,
                      due_date := none, created_by := 1, completed_at := none }]
          projects := [⟨3, 0⟩]
          members := [⟨1, 0, .owner⟩] } = .ok st')
    ∧ updateComment 5 7 "edited"
        { comments := [⟨5, 9, 1, "old"⟩]
          mentions := []
          users := [⟨1, "alice"⟩]
          tasks := [{ id := 9, project_id := 3, title := "t", description := none,
                      status := .todo, priority := .medium, assignee_id := none,
                      due_date := none, created_by := 1, completed_at := none }]
          projects := [⟨3, 0⟩]
          members := [⟨1, 0, .owner⟩] }
        = .error ⟨403, "You do not have permission to update this comment."⟩
    ∧ deleteComment 5 7
        { comments := [⟨5, 9, 1, "old"⟩]
          mentions := []
          users := [⟨1, "alice"⟩]
          tasks := [{ id := 9, project_id := 3, title := "t", description := none,
                      status := .todo, priority := .medium, assignee_id := none,
                      due_date := none, created_by := 1, completed_at := none }]
          projects := [⟨3, 0⟩]
          members := [⟨1, 0, .owner⟩] }
        = .error ⟨403, "You do not have permission to delete this comment."⟩ := by
  have h1 := c8_comment_mutation_authorization
    { comments := [⟨5, 9, 1, "old"⟩]
      mentions := []
      users := [⟨1, "alice"⟩]
      tasks := [{ id := 9, project_id := 3, title := "t", description := none,
                  status := .todo, priority := .medium, assignee_id := none,
                  due_date := none, created_by := 1, completed_at := none }]
      projects := [⟨3, 0⟩]
      members := [⟨1, 0, .owner⟩] }
    5 1 ⟨5, 9, 1, "old"⟩
    { id := 9, project_id := 3, title := "t", description := none,
      status := .todo, priority := .medium, assignee_id := none,
      due_date := none, created_by := 1, completed_at := none }
    ⟨3, 0⟩ rfl rfl rfl
  have h7 := c8_comment_mutation_authorization
    { comments := [⟨5, 9, 1, "old"⟩]
      mentions := []
      users := [⟨1, "alice"⟩]
      tasks := [{ id := 9, project_id := 3, title := "t", description := none,
                  status := .todo, priority := .medium, assignee_id := none,
                  due_date := none, created_by := 1, completed_at := none }]
      projects := [⟨3, 0⟩]
      members := [⟨1, 0, .owner⟩] }
    5 7 ⟨5, 9, 1, "old"⟩
    { id := 9, project_id := 3, title := "t", description := none,
      status := .todo, priority := .medium, assignee_id := none,
      due_date := none, created_by := 1, completed_at := none }
    ⟨3, 0⟩ rfl rfl rfl
  refine ⟨(h1.1 "edited").1 rfl, (h7.1 "edited").2 (by decide), h7.2.2 (by decide) ?_⟩
  intro m hm
  rw [show findMember [⟨1, 0, .owner⟩] 0 7 = none from rfl] at hm
  cases hm
